import Mathlib

/-!
Verification of the post-detection pipeline of `src/code/inference.py`
(repository `nutrivision`).

The two operations with algorithmic content are embedded here:

* `draw_instance_predictions` (lines 47-72): the instance filter and
  compositor.  Images are `H × W × 3` grids; the working buffer is
  rational-valued (the exact value semantics of the float64 buffer the
  NumPy code threads through `np.where`), the input and output are
  8-bit grids.  The external text rasterizer `cv2.putText` is embedded
  as a function parameter `pt : TextRenderer H W`: the compositor calls
  it with the current buffer, the resolved label string and the anchor,
  exactly where line 67 does.  The pseudo-random colour draws of
  `np.random.randint` are embedded as a stream `colors : ℕ → RGBColor`
  consumed one draw per accepted instance, in order.  Python list
  indexing `CLASS_NAMES[labels[i]]`, which throws `IndexError` for an
  index below `-len`, is embedded with `Option`: `none` is the raised
  exception, and it propagates (the whole call fails) as in Python.

* the merged-mask reduction `np.any(masks, axis=0)` of line 111
  (`mergeMasks` / `merged_mask`).
-/

namespace NutriVision

/-- A colour triple, one natural per channel (the code draws `uint8`
channel values). -/
abbrev RGBColor := Fin 3 → ℕ

/-- The float-valued working image buffer (exact value semantics of the
float64 array the loop of lines 48-70 threads). -/
abbrev ImgQ (H W : ℕ) := Fin H → Fin W → Fin 3 → ℚ

/-- An 8-bit image, as consumed and produced by
`draw_instance_predictions` (`img` on entry, `img.astype(np.uint8)` on
line 72). -/
abbrev Img8 (H W : ℕ) := Fin H → Fin W → Fin 3 → Fin 256

/-- A per-instance boolean mask, same height and width as the image. -/
abbrev Mask (H W : ℕ) := Fin H → Fin W → Bool

/-- One detected instance: the parallel sequences `boxes`, `masks`,
`labels`, `scores` of the Detection, bundled at one index.  `label` is
an integer (NumPy int64 may be negative), `score` and the box
coordinates are exact values of the float entries. -/
structure Inst (H W : ℕ) where
  box : ℚ × ℚ × ℚ × ℚ
  mask : Mask H W
  label : ℤ
  score : ℚ

/-- The external `cv2.putText` rasterizer: current buffer, label text,
anchor `x`, anchor `y` (the remaining arguments of line 67-70 — font,
scale, colour, thickness, line type — are fixed constants). -/
abbrev TextRenderer (H W : ℕ) := ImgQ H W → String → ℤ → ℤ → ImgQ H W

/-- Python list indexing `xs[i]` on a list of strings: a negative index
counts from the end; an index out of range after that adjustment raises
`IndexError`, embedded as `none`. -/
def pyIndex (xs : List String) (i : ℤ) : Option String :=
  let j : ℤ := if i < 0 then (xs.length : ℤ) + i else i
  if 0 ≤ j ∧ j < (xs.length : ℤ) then xs.get? j.toNat else none

/-- Line 64: `CLASS_NAMES[labels[i]] if labels[i] < len(CLASS_NAMES)
else str(labels[i])`. -/
def resolveLabel (cat : List String) (lab : ℤ) : Option String :=
  if lab < (cat.length : ℤ) then pyIndex cat lab else some (toString lab)

/-- Line 58: `np.column_stack(np.where(mask))` — the row-major list of
`(row, column)` coordinates of the true pixels of a mask. -/
def maskCoords {H W : ℕ} (m : Mask H W) : List (ℕ × ℕ) :=
  (List.finRange H).flatMap fun y =>
    ((List.finRange W).filter (fun x => m y x)).map fun x => (y.val, x.val)

/-- Line 61: `coords.mean(axis=0).astype(int)`.  The mean row and mean
column of the coordinate list, truncated to integers (the values are
non-negative, so the C-style truncation of `astype(int)` is the
floor). -/
def centroid (coords : List (ℕ × ℕ)) : ℤ × ℤ :=
  (⌊(coords.map fun p => ((p.1 : ℚ))).sum / (coords.length : ℚ)⌋,
   ⌊(coords.map fun p => ((p.2 : ℚ))).sum / (coords.length : ℚ)⌋)

/-- Line 54: `np.stack([mask * color[j] for j in range(3)], axis=-1)` —
the colour where the mask is true, zero elsewhere. -/
def colorMaskOf {H W : ℕ} (m : Mask H W) (color : RGBColor) :
    Fin H → Fin W → Fin 3 → ℚ :=
  fun y x c => if m y x then (color c : ℚ) else 0

/-- Line 55: `img = np.where(mask[:, :, None], img * 0.5 + color_mask *
0.5, img)` — one alpha-blend step of one instance over the current
buffer. -/
def blendOne {H W : ℕ} (img : ImgQ H W) (m : Mask H W) (color : RGBColor) :
    ImgQ H W :=
  fun y x c =>
    if m y x then img y x c * (1 / 2) + colorMaskOf m color y x c * (1 / 2)
    else img y x c

/-- The loop state of lines 48-70: the working buffer, the number of
random colour draws consumed so far, and the list of label draws
(string, anchor x, anchor y) issued to the rasterizer so far. -/
structure DrawState (H W : ℕ) where
  img : ImgQ H W
  rng : ℕ
  draws : List (String × ℤ × ℤ)

/-- The body of the loop of lines 48-70 for one instance: skip it when
`scores[i] < score_thresh`; otherwise draw a colour, blend, and — when
the mask has at least one true pixel — resolve the label (possibly
raising, hence `Option`) and hand it to the rasterizer at the centroid
anchor. -/
def processInst {H W : ℕ} (pt : TextRenderer H W) (colors : ℕ → RGBColor)
    (cat : List String) (t : ℚ) (inst : Inst H W) (st : DrawState H W) :
    Option (DrawState H W) :=
  if inst.score < t then some st
  else if maskCoords inst.mask = [] then
    some ⟨blendOne st.img inst.mask (colors st.rng), st.rng + 1, st.draws⟩
  else
    match resolveLabel cat inst.label with
    | none => none
    | some s =>
        some ⟨pt (blendOne st.img inst.mask (colors st.rng)) s
                (centroid (maskCoords inst.mask)).2
                (centroid (maskCoords inst.mask)).1,
              st.rng + 1,
              st.draws ++ [(s, (centroid (maskCoords inst.mask)).2,
                               (centroid (maskCoords inst.mask)).1)]⟩

/-- The loop of lines 48-70 over the instance list, in index order. -/
def drawLoop {H W : ℕ} (pt : TextRenderer H W) (colors : ℕ → RGBColor)
    (cat : List String) (t : ℚ) :
    List (Inst H W) → DrawState H W → Option (DrawState H W)
  | [], st => some st
  | inst :: rest, st =>
      match processInst pt colors cat t inst st with
      | none => none
      | some st1 => drawLoop pt colors cat t rest st1

/-- Line 72: the float-to-`uint8` cast `astype(np.uint8)` (C-style
truncation; every value actually produced lies in `[0, 255]`, where the
cast is the floor). -/
def toU8 (q : ℚ) : Fin 256 :=
  ⟨Int.toNat ⌊q⌋ % 256, Nat.mod_lt _ (by norm_num)⟩

/-- The 8-bit input image viewed as the initial float buffer. -/
def imgToQ {H W : ℕ} (img : Img8 H W) : ImgQ H W :=
  fun y x c => ((img y x c : ℕ) : ℚ)

/-- Lines 47-72, `draw_instance_predictions`: run the loop from the
source image with no colour draw consumed and no label drawn, then cast
the buffer to 8 bits.  The result also reports the label draws issued
to the rasterizer; `none` is Python's `IndexError` escaping the call. -/
def draw_instance_predictions {H W : ℕ} (pt : TextRenderer H W)
    (colors : ℕ → RGBColor) (cat : List String) (img : Img8 H W)
    (insts : List (Inst H W)) (t : ℚ) :
    Option (Img8 H W × List (String × ℤ × ℤ)) :=
  match drawLoop pt colors cat t insts ⟨imgToQ img, 0, []⟩ with
  | none => none
  | some st => some (fun y x c => toU8 (st.img y x c), st.draws)

/-- Line 111, the boolean merge `np.any(masks, axis=0)`: pixel-wise OR
over all instance masks (no score is consulted). -/
def mergeMasks {H W : ℕ} (ms : List (Mask H W)) : Mask H W :=
  fun y x => ms.any fun m => m y x

/-- Line 111 with its `astype(np.uint8)`: the merged mask as the 0/1
grid handed to inpainting. -/
def merged_mask {H W : ℕ} (ms : List (Mask H W)) : Fin H → Fin W → Fin 256 :=
  fun y x => if mergeMasks ms y x then 1 else 0

/-- The instances the threshold test of line 49 keeps: exactly those
with `¬ (score < t)`. -/
def acceptedInsts {H W : ℕ} (t : ℚ) (insts : List (Inst H W)) :
    List (Inst H W) :=
  insts.filter fun inst => !decide (inst.score < t)

/-- A rasterizer that paints nothing: used to state which guarantees
hold independently of label text and which are broken by it. -/
def idRenderer {H W : ℕ} : TextRenderer H W := fun im _ _ _ => im

/-- Spec §9's reframing of the blend sequencing as a fold: starting
from draw index `r`, blend each accepted instance's mask region, in
index order, each step reading the previous step's buffer.  Stated from
the spec's words to compare with the loop of the source. -/
def blendFold {H W : ℕ} (colors : ℕ → RGBColor) (t : ℚ) :
    List (Inst H W) → ℕ → ImgQ H W → ImgQ H W
  | [], _, img => img
  | inst :: rest, r, img =>
      if inst.score < t then blendFold colors t rest r img
      else blendFold colors t rest (r + 1) (blendOne img inst.mask (colors r))

/-! ### Helper lemmas -/

theorem toU8_imgToQ {H W : ℕ} (img : Img8 H W) (y : Fin H) (x : Fin W)
    (c : Fin 3) : toU8 (imgToQ img y x c) = img y x c := by
  unfold toU8 imgToQ
  apply Fin.ext
  simp [Nat.mod_eq_of_lt (img y x c).is_lt]

theorem composite_nil {H W : ℕ} (pt : TextRenderer H W)
    (colors : ℕ → RGBColor) (cat : List String) (img : Img8 H W) (t : ℚ) :
    draw_instance_predictions pt colors cat img [] t = some (img, []) := by
  unfold draw_instance_predictions drawLoop
  have h : (fun y x c => toU8 (imgToQ img y x c)) = img := by
    funext y x c; exact toU8_imgToQ img y x c
  show some ((fun y x c => toU8 (imgToQ img y x c)),
      ([] : List (String × ℤ × ℤ))) = some (img, [])
  rw [h]

theorem mergeMasks_iff {H W : ℕ} (ms : List (Mask H W)) (y : Fin H)
    (x : Fin W) : mergeMasks ms y x = true ↔ ∃ m ∈ ms, m y x = true := by
  unfold mergeMasks
  simp [List.any_eq_true]

theorem mergeMasks_append_self {H W : ℕ} (ms : List (Mask H W)) :
    mergeMasks (ms ++ ms) = mergeMasks ms := by
  funext y x
  unfold mergeMasks
  rw [List.any_append, Bool.or_self]

theorem mergeMasks_perm {H W : ℕ} {ms ms' : List (Mask H W)}
    (h : ms.Perm ms') : mergeMasks ms = mergeMasks ms' := by
  funext y x
  rw [Bool.eq_iff_iff, mergeMasks_iff, mergeMasks_iff]
  constructor
  · rintro ⟨m, hm, hx⟩; exact ⟨m, h.mem_iff.mp hm, hx⟩
  · rintro ⟨m, hm, hx⟩; exact ⟨m, h.mem_iff.mpr hm, hx⟩

theorem drawLoop_filter {H W : ℕ} (pt : TextRenderer H W)
    (colors : ℕ → RGBColor) (cat : List String) (t : ℚ)
    (insts : List (Inst H W)) :
    ∀ st : DrawState H W,
      drawLoop pt colors cat t insts st =
        drawLoop pt colors cat t (acceptedInsts t insts) st := by
  induction insts with
  | nil => intro st; rfl
  | cons inst rest ih =>
      intro st
      by_cases h : inst.score < t
      · have hp : processInst pt colors cat t inst st = some st := by
          unfold processInst; rw [if_pos h]
        have hf : acceptedInsts t (inst :: rest) = acceptedInsts t rest := by
          unfold acceptedInsts
          simp [List.filter_cons, h]
        rw [hf]
        show (match processInst pt colors cat t inst st with
              | none => none
              | some st1 => drawLoop pt colors cat t rest st1) = _
        rw [hp]
        exact ih st
      · have hf : acceptedInsts t (inst :: rest) =
            inst :: acceptedInsts t rest := by
          unfold acceptedInsts
          simp [List.filter_cons, h]
        rw [hf]
        show (match processInst pt colors cat t inst st with
              | none => none
              | some st1 => drawLoop pt colors cat t rest st1) =
          (match processInst pt colors cat t inst st with
              | none => none
              | some st1 => drawLoop pt colors cat t (acceptedInsts t rest) st1)
        cases hp : processInst pt colors cat t inst st with
        | none => rfl
        | some st1 => exact ih st1

theorem mem_acceptedInsts {H W : ℕ} (t : ℚ) (insts : List (Inst H W))
    (inst : Inst H W) :
    inst ∈ acceptedInsts t insts ↔ inst ∈ insts ∧ t ≤ inst.score := by
  unfold acceptedInsts
  rw [List.mem_filter]
  simp [not_lt]

theorem drawLoop_all_rejected {H W : ℕ} (pt : TextRenderer H W)
    (colors : ℕ → RGBColor) (cat : List String) (t : ℚ)
    (insts : List (Inst H W)) (st : DrawState H W)
    (h : ∀ inst ∈ insts, inst.score < t) :
    drawLoop pt colors cat t insts st = some st := by
  induction insts with
  | nil => rfl
  | cons inst rest ih =>
      have hp : processInst pt colors cat t inst st = some st := by
        unfold processInst; rw [if_pos (h inst (List.mem_cons_self _ _))]
      show (match processInst pt colors cat t inst st with
            | none => none
            | some st1 => drawLoop pt colors cat t rest st1) = some st
      rw [hp]
      exact ih fun i hi => h i (List.mem_cons_of_mem _ hi)

theorem processInst_preserve {H W : ℕ} (colors : ℕ → RGBColor)
    (cat : List String) (t : ℚ) (inst : Inst H W)
    (st st1 : DrawState H W) (y : Fin H) (x : Fin W) (c : Fin 3)
    (hskip : inst.score < t ∨ inst.mask y x = false)
    (h : processInst idRenderer colors cat t inst st = some st1) :
    st1.img y x c = st.img y x c := by
  unfold processInst at h
  by_cases hs : inst.score < t
  · rw [if_pos hs] at h
    cases h
    rfl
  · rw [if_neg hs] at h
    have hm : inst.mask y x = false := hskip.resolve_left hs
    have hb : blendOne st.img inst.mask (colors st.rng) y x c =
        st.img y x c := by
      unfold blendOne; rw [hm]; simp
    by_cases hc : maskCoords inst.mask = []
    · rw [if_pos hc] at h
      cases h
      exact hb
    · rw [if_neg hc] at h
      cases hr : resolveLabel cat inst.label with
      | none => rw [hr] at h; cases h
      | some s =>
          rw [hr] at h
          cases h
          exact hb

theorem drawLoop_preserve {H W : ℕ} (colors : ℕ → RGBColor)
    (cat : List String) (t : ℚ) (insts : List (Inst H W)) :
    ∀ (st stf : DrawState H W) (y : Fin H) (x : Fin W) (c : Fin 3),
      (∀ inst ∈ insts, inst.score < t ∨ inst.mask y x = false) →
      drawLoop idRenderer colors cat t insts st = some stf →
      stf.img y x c = st.img y x c := by
  induction insts with
  | nil =>
      intro st stf y x c _ h
      cases h
      rfl
  | cons inst rest ih =>
      intro st stf y x c hout h
      show _ = st.img y x c
      revert h
      show (match processInst idRenderer colors cat t inst st with
            | none => none
            | some st1 => drawLoop idRenderer colors cat t rest st1) =
          some stf → _
      cases hp : processInst idRenderer colors cat t inst st with
      | none => intro h; cases h
      | some st1 =>
          intro h
          have h1 := ih st1 stf y x c
            (fun i hi => hout i (List.mem_cons_of_mem _ hi)) h
          rw [h1]
          exact processInst_preserve colors cat t inst st st1 y x c
            (hout inst (List.mem_cons_self _ _)) hp

theorem drawLoop_idRenderer_img {H W : ℕ} (colors : ℕ → RGBColor)
    (cat : List String) (t : ℚ) (insts : List (Inst H W)) :
    ∀ st stf : DrawState H W,
      drawLoop idRenderer colors cat t insts st = some stf →
      stf.img = blendFold colors t insts st.rng st.img := by
  induction insts with
  | nil =>
      intro st stf h
      cases h
      rfl
  | cons inst rest ih =>
      intro st stf h
      revert h
      show (match processInst idRenderer colors cat t inst st with
            | none => none
            | some st1 => drawLoop idRenderer colors cat t rest st1) =
          some stf → _
      unfold processInst
      by_cases hs : inst.score < t
      · rw [if_pos hs]
        intro h
        unfold blendFold
        rw [if_pos hs]
        exact ih st stf h
      · rw [if_neg hs]
        by_cases hc : maskCoords inst.mask = []
        · rw [if_pos hc]
          intro h
          unfold blendFold
          rw [if_neg hs]
          exact ih _ stf h
        · rw [if_neg hc]
          cases hr : resolveLabel cat inst.label with
          | none => intro h; cases h
          | some s =>
              intro h
              unfold blendFold
              rw [if_neg hs]
              exact ih _ stf h

theorem mul_length_le_sum (l : List ℚ) (c : ℚ) (h : ∀ a ∈ l, c ≤ a) :
    c * l.length ≤ l.sum := by
  induction l with
  | nil => simp
  | cons a l ih =>
      have h1 : c ≤ a := h a (List.mem_cons_self _ _)
      have h2 : c * l.length ≤ l.sum :=
        ih fun b hb => h b (List.mem_cons_of_mem _ hb)
      rw [List.sum_cons, List.length_cons]
      push_cast
      linarith

theorem sum_le_mul_length (l : List ℚ) (c : ℚ) (h : ∀ a ∈ l, a ≤ c) :
    l.sum ≤ c * l.length := by
  induction l with
  | nil => simp
  | cons a l ih =>
      have h1 : a ≤ c := h a (List.mem_cons_self _ _)
      have h2 : l.sum ≤ c * l.length :=
        ih fun b hb => h b (List.mem_cons_of_mem _ hb)
      rw [List.sum_cons, List.length_cons]
      push_cast
      linarith

theorem floor_mean_bounds (l : List ℕ) (hne : l ≠ []) :
    (∃ a ∈ l, (a : ℤ) ≤ ⌊(l.map fun n : ℕ => (n : ℚ)).sum / (l.length : ℚ)⌋) ∧
    (∃ a ∈ l, ⌊(l.map fun n : ℕ => (n : ℚ)).sum / (l.length : ℚ)⌋ ≤ (a : ℤ)) := by
  have hlen : 0 < (l.length : ℚ) := by
    have : 0 < l.length := List.length_pos.mpr hne
    exact_mod_cast this
  set μ : ℚ := (l.map fun n : ℕ => (n : ℚ)).sum / (l.length : ℚ) with hμ
  constructor
  · by_contra hcon
    push_neg at hcon
    have hall : ∀ a ∈ (l.map fun n : ℕ => (n : ℚ)), ((⌊μ⌋ : ℚ) + 1) ≤ a := by
      intro a ha
      rcases List.mem_map.mp ha with ⟨n, hn, rfl⟩
      have := hcon n hn
      have hz : ⌊μ⌋ + 1 ≤ (n : ℤ) := by omega
      exact_mod_cast hz
    have hsum := mul_length_le_sum _ _ hall
    rw [List.length_map] at hsum
    have hle : ((⌊μ⌋ : ℚ) + 1) ≤ μ := by
      rw [hμ, le_div_iff₀ hlen]
      exact hsum
    have := Int.lt_floor_add_one μ
    linarith
  · by_contra hcon
    push_neg at hcon
    have hall : ∀ a ∈ (l.map fun n : ℕ => (n : ℚ)), a ≤ ((⌊μ⌋ : ℚ) - 1) := by
      intro a ha
      rcases List.mem_map.mp ha with ⟨n, hn, rfl⟩
      have := hcon n hn
      have hz : (n : ℤ) ≤ ⌊μ⌋ - 1 := by omega
      exact_mod_cast hz
    have hsum := sum_le_mul_length _ _ hall
    rw [List.length_map] at hsum
    have hle : μ ≤ ((⌊μ⌋ : ℚ) - 1) := by
      rw [hμ, div_le_iff₀ hlen]
      exact hsum
    have := Int.floor_le μ
    linarith

theorem centroid_row_bounds (coords : List (ℕ × ℕ)) (hne : coords ≠ []) :
    (∃ p ∈ coords, ((p.1 : ℤ)) ≤ (centroid coords).1) ∧
    (∃ p ∈ coords, (centroid coords).1 ≤ (p.1 : ℤ)) := by
  have hmm : ((coords.map Prod.fst).map fun n : ℕ => (n : ℚ)) =
      coords.map fun p => ((p.1 : ℚ)) := by
    rw [List.map_map]; rfl
  have hne2 : coords.map Prod.fst ≠ [] := by
    simpa [List.map_eq_nil_iff] using hne
  have hb := floor_mean_bounds (coords.map Prod.fst) hne2
  rw [hmm, List.length_map] at hb
  constructor
  · rcases hb.1 with ⟨a, ha, hle⟩
    rcases List.mem_map.mp ha with ⟨p, hp, rfl⟩
    exact ⟨p, hp, hle⟩
  · rcases hb.2 with ⟨a, ha, hle⟩
    rcases List.mem_map.mp ha with ⟨p, hp, rfl⟩
    exact ⟨p, hp, hle⟩

theorem centroid_col_bounds (coords : List (ℕ × ℕ)) (hne : coords ≠ []) :
    (∃ p ∈ coords, ((p.2 : ℤ)) ≤ (centroid coords).2) ∧
    (∃ p ∈ coords, (centroid coords).2 ≤ (p.2 : ℤ)) := by
  have hmm : ((coords.map Prod.snd).map fun n : ℕ => (n : ℚ)) =
      coords.map fun p => ((p.2 : ℚ)) := by
    rw [List.map_map]; rfl
  have hne2 : coords.map Prod.snd ≠ [] := by
    simpa [List.map_eq_nil_iff] using hne
  have hb := floor_mean_bounds (coords.map Prod.snd) hne2
  rw [hmm, List.length_map] at hb
  constructor
  · rcases hb.1 with ⟨a, ha, hle⟩
    rcases List.mem_map.mp ha with ⟨p, hp, rfl⟩
    exact ⟨p, hp, hle⟩
  · rcases hb.2 with ⟨a, ha, hle⟩
    rcases List.mem_map.mp ha with ⟨p, hp, rfl⟩
    exact ⟨p, hp, hle⟩

theorem mem_maskCoords {H W : ℕ} (m : Mask H W) (p : ℕ × ℕ) :
    p ∈ maskCoords m ↔
      ∃ (y : Fin H) (x : Fin W), m y x = true ∧ p = (y.val, x.val) := by
  unfold maskCoords
  constructor
  · intro hp
    rcases List.mem_flatMap.mp hp with ⟨y, _, hy2⟩
    rcases List.mem_map.mp hy2 with ⟨x, hx1, rfl⟩
    exact ⟨y, x, (List.mem_filter.mp hx1).2, rfl⟩
  · rintro ⟨y, x, hx, rfl⟩
    refine List.mem_flatMap.mpr ⟨y, List.mem_finRange y, ?_⟩
    exact List.mem_map.mpr ⟨x, List.mem_filter.mpr ⟨List.mem_finRange x, hx⟩, rfl⟩

theorem composite_all_rejected {H W : ℕ} (pt : TextRenderer H W)
    (colors : ℕ → RGBColor) (cat : List String) (img : Img8 H W)
    (insts : List (Inst H W)) (t : ℚ) (h : ∀ inst ∈ insts, inst.score < t) :
    draw_instance_predictions pt colors cat img insts t = some (img, []) := by
  unfold draw_instance_predictions
  rw [drawLoop_all_rejected pt colors cat t insts _ h]
  have heq : (fun y x c => toU8 (imgToQ img y x c)) = img := by
    funext y x c; exact toU8_imgToQ img y x c
  show some ((fun y x c => toU8 (imgToQ img y x c)),
      ([] : List (String × ℤ × ℤ))) = some (img, [])
  rw [heq]

/-! ### Concrete fixtures used in witnesses and the counterexample -/

def wMask1 : Mask 1 1 := fun _ _ => true

def wMask0 : Mask 1 1 := fun _ _ => false

def wInstRejected : Inst 1 1 := ⟨(0, 0, 0, 0), wMask1, 0, 0⟩

def wInstAccepted : Inst 1 1 := ⟨(0, 0, 0, 0), wMask1, 0, 1⟩

def wInstEmptyMask : Inst 1 1 := ⟨(0, 0, 0, 0), wMask0, -5, 1⟩

def wImg : Img8 1 1 := fun _ _ _ => ⟨5, by norm_num⟩

def wState : DrawState 1 1 := ⟨fun _ _ _ => 0, 0, [("z", 0, 0)]⟩

def wColors : ℕ → RGBColor := fun _ _ => 7

/-! ### Claims -/

/-- Claim C5: merge is idempotent and order-independent — merging the
mask set together with itself yields a bit-identical grid, and merging
any permutation of the mask sequence yields the same merged grid as the
original sequence. -/
theorem claim5_merge_idempotent_order_independent {H W : ℕ}
    (ms ms' : List (Mask H W)) :
    mergeMasks (ms ++ ms) = mergeMasks ms ∧
    (ms.Perm ms' → mergeMasks ms = mergeMasks ms') :=
  ⟨mergeMasks_append_self ms, fun h => mergeMasks_perm h⟩

/-- Witness for C5 at concrete masks, with the permutation hypothesis
discharged by an explicit transposition. -/
theorem claim5_witness :
    mergeMasks ([wMask1, wMask0] ++ [wMask1, wMask0]) =
        mergeMasks [wMask1, wMask0] ∧
    mergeMasks [wMask1, wMask0] = mergeMasks [wMask0, wMask1] :=
  ⟨(claim5_merge_idempotent_order_independent [wMask1, wMask0]
      [wMask0, wMask1]).1,
   (claim5_merge_idempotent_order_independent [wMask1, wMask0]
      [wMask0, wMask1]).2 (List.Perm.swap wMask0 wMask1 [])⟩

/-- Claim C8: a detection with zero instances leaves composite's output
equal to the unmodified source (and no label is drawn), and the merged
region is the all-false grid of the source's dimensions. -/
theorem claim8_zero_instances {H W : ℕ} (pt : TextRenderer H W)
    (colors : ℕ → RGBColor) (cat : List String) (img : Img8 H W) (t : ℚ) :
    draw_instance_predictions pt colors cat img [] t = some (img, []) ∧
    ∀ (y : Fin H) (x : Fin W), mergeMasks ([] : List (Mask H W)) y x = false :=
  ⟨composite_nil pt colors cat img t, fun _ _ => rfl⟩

theorem drawLoop_box_irrel {H W : ℕ} (pt : TextRenderer H W)
    (colors : ℕ → RGBColor) (cat : List String) (t : ℚ)
    (newBox : Inst H W → ℚ × ℚ × ℚ × ℚ) (insts : List (Inst H W)) :
    ∀ st : DrawState H W,
      drawLoop pt colors cat t
          (insts.map fun inst => { inst with box := newBox inst }) st =
        drawLoop pt colors cat t insts st := by
  induction insts with
  | nil => intro st; rfl
  | cons inst rest ih =>
      intro st
      rw [List.map_cons]
      have hpi : processInst pt colors cat t
          { inst with box := newBox inst } st =
          processInst pt colors cat t inst st := rfl
      cases hp : processInst pt colors cat t inst st with
      | none => simp only [drawLoop, hpi, hp]
      | some st1 =>
          simp only [drawLoop, hpi, hp]
          exact ih st1

/-- Claim C10: the output of composite does not depend on the boxes
argument — replacing every instance's box arbitrarily, while keeping
image, masks, labels, scores, threshold and colour draws fixed, leaves
the returned image (and the label draws) identical. -/
theorem claim10_boxes_never_read {H W : ℕ} (pt : TextRenderer H W)
    (colors : ℕ → RGBColor) (cat : List String) (img : Img8 H W)
    (insts : List (Inst H W)) (t : ℚ)
    (newBox : Inst H W → ℚ × ℚ × ℚ × ℚ) :
    draw_instance_predictions pt colors cat img
        (insts.map fun inst => { inst with box := newBox inst }) t =
      draw_instance_predictions pt colors cat img insts t := by
  unfold draw_instance_predictions
  rw [drawLoop_box_irrel pt colors cat t newBox insts]

def wPT : TextRenderer 1 1 := idRenderer

def wInstBadLabel : Inst 1 1 := ⟨(0, 0, 0, 0), wMask1, -2, 1⟩

theorem resolveLabel_nonneg_inbounds (cat : List String) (lab : ℤ)
    (h0 : 0 ≤ lab) (hlt : lab < (cat.length : ℤ)) :
    resolveLabel cat lab = cat.get? lab.toNat := by
  simp only [resolveLabel, pyIndex]
  rw [if_pos hlt, if_neg (not_lt.mpr h0), if_pos ⟨h0, hlt⟩]

theorem resolveLabel_ge (cat : List String) (lab : ℤ)
    (hge : (cat.length : ℤ) ≤ lab) :
    resolveLabel cat lab = some (toString lab) := by
  simp only [resolveLabel]
  rw [if_neg (not_lt.mpr hge)]

theorem resolveLabel_neg_inbounds (cat : List String) (lab : ℤ)
    (hneg : lab < 0) (hin : -(cat.length : ℤ) ≤ lab) :
    resolveLabel cat lab = cat.get? ((cat.length : ℤ) + lab).toNat := by
  have hlt : lab < (cat.length : ℤ) :=
    lt_of_lt_of_le hneg (Int.natCast_nonneg cat.length)
  simp only [resolveLabel, pyIndex]
  rw [if_pos hlt, if_pos hneg, if_pos ⟨by omega, by omega⟩]

theorem resolveLabel_neg_oob (cat : List String) (lab : ℤ)
    (hoob : lab < -(cat.length : ℤ)) : resolveLabel cat lab = none := by
  have hneg : lab < 0 := by omega
  have hlt : lab < (cat.length : ℤ) :=
    lt_of_lt_of_le hneg (Int.natCast_nonneg cat.length)
  simp only [resolveLabel, pyIndex]
  rw [if_pos hlt, if_pos hneg, if_neg]
  rintro ⟨h1, _⟩
  omega

theorem get?_isSome_of_lt {α : Type} (l : List α) (n : ℕ) (h : n < l.length) :
    ∃ a, l.get? n = some a := by
  rw [List.get?_eq_get h]
  exact ⟨l.get ⟨n, h⟩, rfl⟩

/-- Claim C6: for an accepted instance the displayed label text is the
catalog entry `CLASS_NAMES[labels[i]]` when `labels[i]` is a valid
(non-negative, in-bounds) catalog index, and the decimal string of
`labels[i]` when it is at least the catalog length — the lookup
degrades to text instead of failing.  The last conjunct ties the text
to the display: any label draw a loop step adds was produced by this
resolution. -/
theorem claim6_label_text {H W : ℕ} (pt : TextRenderer H W)
    (colors : ℕ → RGBColor) (cat : List String) (t : ℚ) (lab : ℤ) :
    (0 ≤ lab → lab < (cat.length : ℤ) →
        resolveLabel cat lab = cat.get? lab.toNat ∧
        ∃ s, resolveLabel cat lab = some s) ∧
    ((cat.length : ℤ) ≤ lab → resolveLabel cat lab = some (toString lab)) ∧
    (∀ (inst : Inst H W) (st st1 : DrawState H W),
        processInst pt colors cat t inst st = some st1 →
        ∀ d ∈ st1.draws, d ∈ st.draws ∨
          resolveLabel cat inst.label = some d.1) := by
  refine ⟨?_, resolveLabel_ge cat lab, ?_⟩
  · intro h0 hlt
    refine ⟨resolveLabel_nonneg_inbounds cat lab h0 hlt, ?_⟩
    have hn : lab.toNat < cat.length := by omega
    rcases get?_isSome_of_lt cat lab.toNat hn with ⟨s, hs⟩
    exact ⟨s, by rw [resolveLabel_nonneg_inbounds cat lab h0 hlt, hs]⟩
  · intro inst st st1 h d hd
    unfold processInst at h
    by_cases hs : inst.score < t
    · rw [if_pos hs] at h
      cases h
      exact Or.inl hd
    · rw [if_neg hs] at h
      by_cases hc : maskCoords inst.mask = []
      · rw [if_pos hc] at h
        cases h
        exact Or.inl hd
      · rw [if_neg hc] at h
        cases hr : resolveLabel cat inst.label with
        | none => rw [hr] at h; cases h
        | some s =>
            rw [hr] at h
            cases h
            rcases List.mem_append.mp hd with hl | hr2
            · exact Or.inl hl
            · rcases List.mem_singleton.mp hr2 with rfl
              exact Or.inr rfl

/-- Witness for C6: catalog `["apple"]`; id 0 resolves to the entry, id
5 resolves to its decimal string, and a label draw already present in
the state is accounted for. -/
theorem claim6_witness :
    (resolveLabel ["apple"] 0 = ["apple"].get? (0 : ℤ).toNat ∧
      ∃ s, resolveLabel ["apple"] 0 = some s) ∧
    resolveLabel ["apple"] 5 = some (toString (5 : ℤ)) ∧
    (("z", (0 : ℤ), (0 : ℤ)) ∈ wState.draws ∨
      resolveLabel ["apple"] wInstRejected.label = some "z") :=
  ⟨(claim6_label_text wPT wColors ["apple"] 1 0).1 (by decide) (by decide),
   (claim6_label_text wPT wColors ["apple"] 1 5).2.1 (by decide),
   (claim6_label_text wPT wColors ["apple"] 1 0).2.2 wInstRejected wState
     wState
     (by unfold processInst
         rw [if_pos (by norm_num [wInstRejected] : wInstRejected.score < 1)])
     ("z", (0 : ℤ), (0 : ℤ)) (by simp [wState])⟩

/-- Claim C9: a negative label id always satisfies the catalog-branch
test `labels[i] < len(CLASS_NAMES)`, so the decimal-string fallback is
never taken for it: for `-len ≤ labels[i] < 0` the resolved text is the
catalog entry at `len + labels[i]` (Python negative indexing), and for
`labels[i] < -len` the lookup raises `IndexError` (the loop step
fails) instead of degrading. -/
theorem claim9_negative_label_indexing {H W : ℕ} (pt : TextRenderer H W)
    (colors : ℕ → RGBColor) (cat : List String) (lab : ℤ) (hneg : lab < 0) :
    resolveLabel cat lab = pyIndex cat lab ∧
    (-(cat.length : ℤ) ≤ lab →
        resolveLabel cat lab = cat.get? ((cat.length : ℤ) + lab).toNat ∧
        ∃ s, resolveLabel cat lab = some s) ∧
    (lab < -(cat.length : ℤ) → resolveLabel cat lab = none) ∧
    (∀ (t : ℚ) (inst : Inst H W) (st : DrawState H W),
        ¬ inst.score < t → maskCoords inst.mask ≠ [] → inst.label = lab →
        lab < -(cat.length : ℤ) →
        processInst pt colors cat t inst st = none) := by
  have hlt : lab < (cat.length : ℤ) :=
    lt_of_lt_of_le hneg (Int.natCast_nonneg cat.length)
  refine ⟨?_, ?_, resolveLabel_neg_oob cat lab, ?_⟩
  · simp only [resolveLabel]
    rw [if_pos hlt]
  · intro hin
    refine ⟨resolveLabel_neg_inbounds cat lab hneg hin, ?_⟩
    have hn : ((cat.length : ℤ) + lab).toNat < cat.length := by omega
    rcases get?_isSome_of_lt cat _ hn with ⟨s, hs⟩
    exact ⟨s, by rw [resolveLabel_neg_inbounds cat lab hneg hin, hs]⟩
  · intro t inst st hscore hcoords hlab hoob
    unfold processInst
    rw [if_neg hscore, if_neg hcoords, hlab,
      resolveLabel_neg_oob cat lab hoob]

/-- Witness for C9: catalog `["apple"]`; id `-1` resolves through
negative indexing to the entry at position 0, id `-2` raises, and an
accepted non-empty-mask instance labelled `-2` makes the loop step
fail. -/
theorem claim9_witness :
    resolveLabel ["apple"] (-1) = pyIndex ["apple"] (-1) ∧
    (resolveLabel ["apple"] (-1) =
        ["apple"].get? (((["apple"].length : ℕ) : ℤ) + (-1)).toNat ∧
      ∃ s, resolveLabel ["apple"] (-1) = some s) ∧
    resolveLabel ["apple"] (-2) = none ∧
    processInst wPT wColors ["apple"] 0 wInstBadLabel wState = none :=
  ⟨(claim9_negative_label_indexing wPT wColors ["apple"] (-1) (by decide)).1,
   (claim9_negative_label_indexing wPT wColors ["apple"] (-1)
      (by decide)).2.1 (by decide),
   (claim9_negative_label_indexing wPT wColors ["apple"] (-2)
      (by decide)).2.2.1 (by decide),
   (claim9_negative_label_indexing wPT wColors ["apple"] (-2)
      (by decide)).2.2.2 0 wInstBadLabel wState
     (by norm_num [wInstBadLabel]) (by decide) rfl (by decide)⟩

/-- Claim C2: composite blends and labels exactly the instances with
`scores[i] >= t`: the run over the full instance list equals the run
over the list filtered by the threshold test of line 49 (so rejected
instances contribute no pixel change and no label, and every accepted
instance is processed), the filtered list holds exactly the instances
with `t ≤ score`, and for `t1 < t2` the accepted set at `t2` is a
subset of the accepted set at `t1`. -/
theorem claim2_exact_threshold_set {H W : ℕ} (pt : TextRenderer H W)
    (colors : ℕ → RGBColor) (cat : List String) (img : Img8 H W)
    (insts : List (Inst H W)) (t : ℚ) :
    draw_instance_predictions pt colors cat img insts t =
      draw_instance_predictions pt colors cat img (acceptedInsts t insts) t ∧
    (∀ inst, inst ∈ acceptedInsts t insts ↔ inst ∈ insts ∧ t ≤ inst.score) ∧
    (∀ t1 t2 : ℚ, t1 < t2 → ∀ inst, inst ∈ acceptedInsts t2 insts →
        inst ∈ acceptedInsts t1 insts) := by
  refine ⟨?_, fun inst => mem_acceptedInsts t insts inst, ?_⟩
  · unfold draw_instance_predictions
    rw [drawLoop_filter pt colors cat t insts]
  · intro t1 t2 h12 inst hmem
    rcases (mem_acceptedInsts t2 insts inst).mp hmem with ⟨hin, hle⟩
    exact (mem_acceptedInsts t1 insts inst).mpr
      ⟨hin, le_trans (le_of_lt h12) hle⟩

/-- Witness for C2: with thresholds `0 < 1`, an instance accepted at 1
is accepted at 0. -/
theorem claim2_witness :
    (0 : ℚ) < 1 ∧ wInstAccepted ∈ acceptedInsts (0 : ℚ) [wInstAccepted] :=
  ⟨by norm_num,
   (claim2_exact_threshold_set wPT wColors [] wImg [wInstAccepted] 0).2.2 0 1
     (by norm_num) wInstAccepted
     ((mem_acceptedInsts 1 [wInstAccepted] wInstAccepted).mpr
        ⟨List.mem_singleton_self _, by norm_num [wInstAccepted]⟩)⟩

/-- Claim C3: `MergedRegion` is the pixel-wise OR over ALL instance
masks with no score filtering: the merged grid is true at a pixel iff
some instance's mask is true there, in particular a below-threshold
instance's mask pixels are true in the merged grid; and when every
instance is below threshold the visualization is the unmodified source
(no pixel change, no label), for any rasterizer. -/
theorem claim3_merge_unfiltered {H W : ℕ} (y : Fin H) (x : Fin W) :
    (∀ ms : List (Mask H W),
        mergeMasks ms y x = true ↔ ∃ m ∈ ms, m y x = true) ∧
    (∀ (insts : List (Inst H W)) (t : ℚ), ∀ inst ∈ insts,
        inst.score < t → inst.mask y x = true →
        mergeMasks (insts.map Inst.mask) y x = true) ∧
    (∀ (pt : TextRenderer H W) (colors : ℕ → RGBColor) (cat : List String)
        (img : Img8 H W) (insts : List (Inst H W)) (t : ℚ),
        (∀ inst ∈ insts, inst.score < t) →
        draw_instance_predictions pt colors cat img insts t =
          some (img, [])) := by
  refine ⟨fun ms => mergeMasks_iff ms y x, ?_, ?_⟩
  · intro insts t inst hin _ hmask
    exact (mergeMasks_iff _ y x).mpr
      ⟨inst.mask, List.mem_map.mpr ⟨inst, hin, rfl⟩, hmask⟩
  · intro pt colors cat img insts t h
    exact composite_all_rejected pt colors cat img insts t h

/-- Witness for C3: a single instance with score 0 below threshold 1:
its mask pixel is true in the merged grid, yet composite returns the
source image untouched with no label drawn. -/
theorem claim3_witness :
    wInstRejected.score < 1 ∧ wInstRejected.mask 0 0 = true ∧
    mergeMasks ([wInstRejected].map Inst.mask) 0 0 = true ∧
    draw_instance_predictions wPT wColors [] wImg [wInstRejected] 1 =
      some (wImg, []) :=
  ⟨by norm_num [wInstRejected], rfl,
   (claim3_merge_unfiltered (0 : Fin 1) (0 : Fin 1)).2.1 [wInstRejected] 1
     wInstRejected (List.mem_singleton_self _) (by norm_num [wInstRejected])
     rfl,
   (claim3_merge_unfiltered (0 : Fin 1) (0 : Fin 1)).2.2 wPT wColors [] wImg
     [wInstRejected] 1
     (by intro i hi
         rcases List.mem_singleton.mp hi with rfl
         norm_num [wInstRejected])⟩

/-- Claim C4: each accepted instance, in index order, turns every pixel
where its mask is true into `0.5 * current + 0.5 * color` (the current
value possibly already blended by earlier instances), leaves pixels
outside its mask unchanged by its blend, blends later instances over
earlier results, and the returned image is the 8-bit truncation: with
label rendering factored out (identity rasterizer) composite's image is
exactly the truncated sequential blend fold. -/
theorem claim4_blend_arithmetic {H W : ℕ} (colors : ℕ → RGBColor)
    (cat : List String) (img0 : ImgQ H W) (m : Mask H W) (color : RGBColor)
    (y : Fin H) (x : Fin W) (c : Fin 3) :
    (m y x = true → blendOne img0 m color y x c =
        img0 y x c * (1 / 2) + (color c : ℚ) * (1 / 2)) ∧
    (m y x = false → blendOne img0 m color y x c = img0 y x c) ∧
    (∀ (img : Img8 H W) (insts : List (Inst H W)) (t : ℚ) (res : Img8 H W)
        (ds : List (String × ℤ × ℤ)),
        draw_instance_predictions idRenderer colors cat img insts t =
          some (res, ds) →
        res y x c = toU8 (blendFold colors t insts 0 (imgToQ img) y x c)) := by
  refine ⟨?_, ?_, ?_⟩
  · intro hm
    unfold blendOne colorMaskOf
    rw [hm]
    simp
  · intro hm
    unfold blendOne
    rw [hm]
    simp
  · intro img insts t res ds h
    unfold draw_instance_predictions at h
    cases hd : drawLoop idRenderer colors cat t insts ⟨imgToQ img, 0, []⟩ with
    | none => rw [hd] at h; cases h
    | some st =>
        rw [hd] at h
        have hres : res = fun y x c => toU8 (st.img y x c) := by
          cases h; rfl
        have himg := drawLoop_idRenderer_img colors cat t insts _ st hd
        rw [hres]
        show toU8 (st.img y x c) = _
        rw [himg]

/-- Witness for C4 at a 1-by-1 image: the blend formula on a true-mask
pixel, preservation on a false-mask pixel, and the fold equation for a
concrete composite run. -/
theorem claim4_witness :
    (wMask1 0 0 = true ∧
      blendOne (imgToQ wImg) wMask1 (wColors 0) 0 0 0 =
        imgToQ wImg 0 0 0 * (1 / 2) + ((wColors 0 0 : ℕ) : ℚ) * (1 / 2)) ∧
    (wMask0 0 0 = false ∧
      blendOne (imgToQ wImg) wMask0 (wColors 0) 0 0 0 = imgToQ wImg 0 0 0) ∧
    wImg 0 0 0 = toU8 (blendFold wColors 1 [] 0 (imgToQ wImg) 0 0 0) :=
  ⟨⟨rfl, (claim4_blend_arithmetic wColors [] (imgToQ wImg) wMask1 (wColors 0)
      0 0 0).1 rfl⟩,
   ⟨rfl, (claim4_blend_arithmetic wColors [] (imgToQ wImg) wMask0 (wColors 0)
      0 0 0).2.1 rfl⟩,
   (claim4_blend_arithmetic wColors [] (imgToQ wImg) wMask1 (wColors 0)
      0 0 0).2.2 wImg [] 1 wImg []
     (composite_nil idRenderer wColors [] wImg 1)⟩

/-- Claim C7: for an accepted instance with a non-empty mask the label
anchor is the floored mean row and column of the mask's true pixels
(the coordinates listed by `np.where`) and lies within the mask's
bounding box (between some true pixel's row/column on each side); an
accepted instance with an empty mask makes the loop step succeed with
no label drawn (no crash, no anchor). -/
theorem claim7_label_anchor {H W : ℕ} (pt : TextRenderer H W)
    (colors : ℕ → RGBColor) (cat : List String) (t : ℚ) (inst : Inst H W)
    (st : DrawState H W) :
    (∀ p, p ∈ maskCoords inst.mask ↔
        ∃ (y : Fin H) (x : Fin W), inst.mask y x = true ∧
          p = (y.val, x.val)) ∧
    (maskCoords inst.mask ≠ [] →
        (∃ p ∈ maskCoords inst.mask,
            (p.1 : ℤ) ≤ (centroid (maskCoords inst.mask)).1) ∧
        (∃ p ∈ maskCoords inst.mask,
            (centroid (maskCoords inst.mask)).1 ≤ (p.1 : ℤ)) ∧
        (∃ p ∈ maskCoords inst.mask,
            (p.2 : ℤ) ≤ (centroid (maskCoords inst.mask)).2) ∧
        (∃ p ∈ maskCoords inst.mask,
            (centroid (maskCoords inst.mask)).2 ≤ (p.2 : ℤ))) ∧
    (¬ inst.score < t → maskCoords inst.mask = [] →
        processInst pt colors cat t inst st =
          some ⟨blendOne st.img inst.mask (colors st.rng), st.rng + 1,
                st.draws⟩) ∧
    (¬ inst.score < t → maskCoords inst.mask ≠ [] → ∀ s,
        resolveLabel cat inst.label = some s →
        processInst pt colors cat t inst st =
          some ⟨pt (blendOne st.img inst.mask (colors st.rng)) s
                  (centroid (maskCoords inst.mask)).2
                  (centroid (maskCoords inst.mask)).1,
                st.rng + 1,
                st.draws ++ [(s, (centroid (maskCoords inst.mask)).2,
                                 (centroid (maskCoords inst.mask)).1)]⟩) := by
  refine ⟨fun p => mem_maskCoords inst.mask p, ?_, ?_, ?_⟩
  · intro hne
    obtain ⟨h1, h2⟩ := centroid_row_bounds _ hne
    obtain ⟨h3, h4⟩ := centroid_col_bounds _ hne
    exact ⟨h1, h2, h3, h4⟩
  · intro hs hc
    unfold processInst
    rw [if_neg hs, if_pos hc]
  · intro hs hc s hr
    unfold processInst
    rw [if_neg hs, if_neg hc, hr]

/-- Witness for C7: the anchor of the all-true 1-by-1 mask lies within
its bounding box, the empty-mask accepted instance completes with no
label drawn, and the accepted instance's step draws its label at the
centroid anchor. -/
theorem claim7_witness :
    ((∃ p ∈ maskCoords wInstAccepted.mask,
        (p.1 : ℤ) ≤ (centroid (maskCoords wInstAccepted.mask)).1) ∧
      (∃ p ∈ maskCoords wInstAccepted.mask,
        (centroid (maskCoords wInstAccepted.mask)).1 ≤ (p.1 : ℤ)) ∧
      (∃ p ∈ maskCoords wInstAccepted.mask,
        (p.2 : ℤ) ≤ (centroid (maskCoords wInstAccepted.mask)).2) ∧
      (∃ p ∈ maskCoords wInstAccepted.mask,
        (centroid (maskCoords wInstAccepted.mask)).2 ≤ (p.2 : ℤ))) ∧
    processInst wPT wColors ["apple"] 0 wInstEmptyMask wState =
      some ⟨blendOne wState.img wInstEmptyMask.mask (wColors wState.rng),
            wState.rng + 1, wState.draws⟩ ∧
    processInst wPT wColors ["apple"] 0 wInstAccepted wState =
      some ⟨wPT (blendOne wState.img wInstAccepted.mask (wColors wState.rng))
              "apple" (centroid (maskCoords wInstAccepted.mask)).2
              (centroid (maskCoords wInstAccepted.mask)).1,
            wState.rng + 1,
            wState.draws ++
              [("apple", (centroid (maskCoords wInstAccepted.mask)).2,
                (centroid (maskCoords wInstAccepted.mask)).1)]⟩ :=
  ⟨(claim7_label_anchor wPT wColors ["apple"] 0 wInstAccepted wState).2.1
     (by decide),
   (claim7_label_anchor wPT wColors ["apple"] 0 wInstEmptyMask wState).2.2.1
     (by norm_num [wInstEmptyMask]) (by decide),
   (claim7_label_anchor wPT wColors ["apple"] 0 wInstAccepted wState).2.2.2
     (by norm_num [wInstAccepted]) (by decide) "apple" (by decide)⟩

/-- Claim C1 (amended): the alpha-blend stage never alters a pixel that
lies outside every accepted instance's mask — with label-text rendering
factored out (identity rasterizer) every such pixel of the returned
image is bit-identical to the source; label rendering is what can
overwrite pixels outside all accepted masks (see the counterexample). -/
theorem claim1_outside_pixels_amended {H W : ℕ} (colors : ℕ → RGBColor)
    (cat : List String) (img : Img8 H W) (insts : List (Inst H W)) (t : ℚ)
    (res : Img8 H W) (ds : List (String × ℤ × ℤ)) (y : Fin H) (x : Fin W)
    (c : Fin 3)
    (hout : ∀ inst ∈ insts, inst.score < t ∨ inst.mask y x = false)
    (h : draw_instance_predictions idRenderer colors cat img insts t =
      some (res, ds)) :
    res y x c = img y x c := by
  unfold draw_instance_predictions at h
  cases hd : drawLoop idRenderer colors cat t insts ⟨imgToQ img, 0, []⟩ with
  | none => rw [hd] at h; cases h
  | some st =>
      rw [hd] at h
      have hres : res = fun y x c => toU8 (st.img y x c) := by
        cases h; rfl
      rw [hres]
      show toU8 (st.img y x c) = img y x c
      rw [drawLoop_preserve colors cat t insts _ st y x c hout hd]
      exact toU8_imgToQ img y x c

/-- Witness for C1's amended statement: a rejected instance leaves the
pixel at the origin of a 1-by-1 image bit-identical to the source. -/
theorem claim1_witness :
    (∀ inst ∈ [wInstRejected],
        inst.score < (1 : ℚ) ∨ inst.mask 0 0 = false) ∧
    wImg 0 0 0 = wImg 0 0 0 := by
  have hout : ∀ inst ∈ [wInstRejected],
      inst.score < (1 : ℚ) ∨ inst.mask 0 0 = false := by
    intro i hi
    rcases List.mem_singleton.mp hi with rfl
    exact Or.inl (by norm_num [wInstRejected])
  have hrun : draw_instance_predictions idRenderer wColors [] wImg
      [wInstRejected] 1 = some (wImg, []) :=
    composite_all_rejected idRenderer wColors [] wImg [wInstRejected] 1
      (by intro i hi
          rcases List.mem_singleton.mp hi with rfl
          norm_num [wInstRejected])
  exact ⟨hout, claim1_outside_pixels_amended wColors [] wImg [wInstRejected]
    1 wImg [] 0 0 0 hout hrun⟩

/-! Counterexample fixtures for C1: a 1-by-3 source image with value
100 everywhere, one accepted instance whose mask is true at columns
0 and 2 only, and a rasterizer that inks a single black pixel at the
label anchor — a minimal stand-in for `cv2.putText`, which inks glyph
pixels near the anchor with no clipping to the mask.  The centroid
anchor of the mask lands on column 1, which is outside the mask. -/

def cImg : Img8 1 3 := fun _ _ _ => (100 : Fin 256)

def cMask : Mask 1 3 := fun _ x => decide (x.val ≠ 1)

def cInst : Inst 1 3 := ⟨(0, 0, 0, 0), cMask, 0, 1⟩

def inkAt : TextRenderer 1 3 := fun im _ xp yp y x c =>
  if (y.val : ℤ) = yp ∧ (x.val : ℤ) = xp then 0 else im y x c

def cColors : ℕ → RGBColor := fun _ _ => 200

/-- Counterexample to C1 as stated: the instance is accepted, the pixel
at row 0 column 1 is outside its mask (and outside every accepted
mask), the source there is 100, yet the composite output there is 0 —
the label draw landed on it. -/
theorem claim1_counterexample :
    ¬ cInst.score < 1 / 2 ∧ cInst.mask 0 1 = false ∧
    cImg 0 1 0 = (100 : Fin 256) ∧
    (draw_instance_predictions inkAt cColors ["bg"] cImg [cInst]
        (1 / 2)).map (fun r => r.1 0 1 0) = some (0 : Fin 256) := by
  have hscore : ¬ cInst.score < (1 / 2 : ℚ) := by norm_num [cInst]
  have hcoords : maskCoords cInst.mask =
      [((0 : ℕ), (0 : ℕ)), ((0 : ℕ), (2 : ℕ))] := by decide
  have hcent : centroid [((0 : ℕ), (0 : ℕ)), ((0 : ℕ), (2 : ℕ))] =
      ((0 : ℤ), (1 : ℤ)) := by
    unfold centroid
    norm_num
  have hres : resolveLabel ["bg"] cInst.label = some "bg" := by decide
  have hp : processInst inkAt cColors ["bg"] (1 / 2) cInst
      ⟨imgToQ cImg, 0, []⟩ = some
      ⟨inkAt (blendOne (imgToQ cImg) cInst.mask (cColors 0)) "bg" 1 0,
       1, [("bg", 1, 0)]⟩ := by
    unfold processInst
    rw [hcoords, if_neg hscore, hres, hcent,
      if_neg (by decide :
        ¬ ([((0 : ℕ), (0 : ℕ)), ((0 : ℕ), (2 : ℕ))] = ([] : List (ℕ × ℕ))))]
    rfl
  have hloop : drawLoop inkAt cColors ["bg"] (1 / 2) [cInst]
      ⟨imgToQ cImg, 0, []⟩ = some
      ⟨inkAt (blendOne (imgToQ cImg) cInst.mask (cColors 0)) "bg" 1 0,
       1, [("bg", 1, 0)]⟩ := by
    simp only [drawLoop, hp]
  have hink : inkAt (blendOne (imgToQ cImg) cInst.mask (cColors 0)) "bg"
      1 0 0 1 0 = 0 := by
    unfold inkAt
    rw [if_pos ⟨by decide, by decide⟩]
  refine ⟨hscore, by decide, by decide, ?_⟩
  unfold draw_instance_predictions
  rw [hloop]
  show some (toU8 (inkAt (blendOne (imgToQ cImg) cInst.mask (cColors 0))
      "bg" 1 0 0 1 0)) = some (0 : Fin 256)
  rw [hink]
  decide

end NutriVision
